import Mathlib

set_option autoImplicit false
set_option maxRecDepth 8000

/-!
Verification development for the hw-mockup repository: a shallow embedding of
the mark-state engine of hw_server.py (Mark Store, replace-all synchronization,
projection resolver) and of the orchestrator in client_app.py (Topology
Registry, Desired-State Tracker, apply-mark intent), together with theorems
settling the specification claims about them.
-/

namespace HwMockup

/-- Python str.strip as used throughout the sources: drop whitespace at both ends. -/
def pyStrip (s : String) : String :=
  ⟨((s.data.dropWhile Char.isWhitespace).reverse.dropWhile Char.isWhitespace).reverse⟩

/-- Python str.lower applied to a single character, as it acts on the ASCII color strings. -/
def lowerChar (c : Char) : Char :=
  if 65 ≤ c.toNat ∧ c.toNat ≤ 90 then Char.ofNat (c.toNat + 32) else c

/-- Python str.lower. -/
def pyLower (s : String) : String :=
  ⟨s.data.map lowerChar⟩

/-- Membership in the character class [0-9a-fA-F] of HEX_RE in hw_server.py. -/
def isHexChar (c : Char) : Bool :=
  decide ((48 ≤ c.toNat ∧ c.toNat ≤ 57) ∨ (97 ≤ c.toNat ∧ c.toNat ≤ 102) ∨
    (65 ≤ c.toNat ∧ c.toNat ≤ 70))

/-- A lowercase hexadecimal digit: the character class of normalized color values. -/
def isLowerHexChar (c : Char) : Bool :=
  decide ((48 ≤ c.toNat ∧ c.toNat ≤ 57) ∨ (97 ≤ c.toNat ∧ c.toNat ≤ 102))

/-- HEX_RE.fullmatch over a character list: a hash sign followed by six hex digits. -/
def hexMatchL : List Char → Bool
  | c :: rest => c == '#' && rest.length == 6 && rest.all isHexChar
  | [] => false

/-- HEX_RE.fullmatch from hw_server.py. -/
def hexMatch (s : String) : Bool := hexMatchL s.data

/-- The shape of a normalized color, over a character list: hash sign then six
lowercase hex digits. -/
def isNormalizedHexL : List Char → Bool
  | c :: rest => c == '#' && rest.length == 6 && rest.all isLowerHexChar
  | [] => false

/-- A normalized color value: hash sign followed by six lowercase hex digits,
never a raw color name. -/
def isNormalizedHex (s : String) : Bool := isNormalizedHexL s.data

/-- The COLOR_NAMES table of hw_server.py. -/
def COLOR_NAMES : List (String × String) :=
  [⟨"red", "#ff0000"⟩, ⟨"green", "#00ff00"⟩, ⟨"blue", "#0000ff"⟩,
   ⟨"yellow", "#f59e0b"⟩, ⟨"orange", "#f97316"⟩, ⟨"purple", "#8b5cf6"⟩,
   ⟨"magenta", "#ff00ff"⟩, ⟨"cyan", "#06b6d4"⟩, ⟨"white", "#ffffff"⟩]

/-- Lookup in a Python dict modelled as an insertion-ordered association list. -/
def dlookup {α : Type} : List (String × α) → String → Option α
  | [], _ => none
  | p :: m, k => if p.1 = k then some p.2 else dlookup m k

/-- normalize_color from hw_server.py: a valid hex string is lowercased, a known
color name is looked up in COLOR_NAMES, anything else is rejected. -/
def normalize_color (value : String) : Option String :=
  let v := pyStrip value
  if hexMatch v then some (pyLower v)
  else dlookup COLOR_NAMES (pyLower v)

/-- Python dict assignment d[k] = v: overwrite in place if the key is present
(keeping its position), otherwise append at the end. -/
def dictSet {α : Type} (m : List (String × α)) (k : String) (v : α) : List (String × α) :=
  if (dlookup m k).isSome then m.map fun p => if p.1 = k then ⟨k, v⟩ else p
  else m ++ [⟨k, v⟩]

/-- Python dict d.pop(k, None): remove the entry with the key, if any. -/
def dictPop {α : Type} (m : List (String × α)) (k : String) : List (String × α) :=
  m.filter fun p => !(p.1 == k)

theorem dlookup_nil {α : Type} (k : String) : dlookup ([] : List (String × α)) k = none := rfl

theorem dlookup_cons {α : Type} (k k' : String) (v : α) (m : List (String × α)) :
    dlookup (⟨k', v⟩ :: m) k = if k' = k then some v else dlookup m k := rfl

theorem dlookup_append {α : Type} (l₁ l₂ : List (String × α)) (k : String) :
    dlookup (l₁ ++ l₂) k =
      match dlookup l₁ k with
      | some v => some v
      | none => dlookup l₂ k := by
  induction l₁ with
  | nil => rfl
  | cons p m ih =>
    by_cases h : p.1 = k
    · simp [dlookup, h]
    · simp [dlookup, h, ih]

theorem dlookup_mapRepl {α : Type} {m : List (String × α)} {k : String} {v : α}
    (h : (dlookup m k).isSome = true) :
    dlookup (m.map fun p => if p.1 = k then (⟨k, v⟩ : String × α) else p) k = some v := by
  induction m with
  | nil => simp [dlookup] at h
  | cons p m ih =>
    by_cases hp : p.1 = k
    · simp [dlookup, hp]
    · have h' : (dlookup m k).isSome = true := by
        simpa [dlookup, hp] using h
      simp [dlookup, hp, ih h']

theorem dlookup_dictSet_self {α : Type} (m : List (String × α)) (k : String) (v : α) :
    dlookup (dictSet m k v) k = some v := by
  unfold dictSet
  by_cases h : (dlookup m k).isSome = true
  · rw [if_pos h]
    exact dlookup_mapRepl h
  · rw [if_neg h]
    rw [dlookup_append]
    have hn : dlookup m k = none := by
      cases hl : dlookup m k with
      | none => rfl
      | some w => rw [hl] at h; simp at h
    rw [hn]
    simp [dlookup]

theorem dlookup_mapRepl_ne {α : Type} (m : List (String × α)) (k k' : String) (v : α)
    (h : k' ≠ k) :
    dlookup (m.map fun p => if p.1 = k then (⟨k, v⟩ : String × α) else p) k' = dlookup m k' := by
  induction m with
  | nil => rfl
  | cons p m ih =>
    simp only [List.map_cons]
    have h1 : ¬ k = k' := fun he => h he.symm
    by_cases hp : p.1 = k
    · have h2 : ¬ p.1 = k' := by rw [hp]; exact h1
      simp [dlookup, hp, h1, h2, ih]
    · rw [if_neg hp]
      by_cases hpk : p.1 = k'
      · simp [dlookup, hpk]
      · simp [dlookup, hpk, ih]

theorem dlookup_dictSet_ne {α : Type} (m : List (String × α)) (k k' : String) (v : α)
    (h : k' ≠ k) : dlookup (dictSet m k v) k' = dlookup m k' := by
  unfold dictSet
  by_cases hs : (dlookup m k).isSome = true
  · rw [if_pos hs]
    exact dlookup_mapRepl_ne m k k' v h
  · rw [if_neg hs]
    rw [dlookup_append]
    cases hl : dlookup m k' with
    | some w => rfl
    | none =>
      have h1 : ¬ k = k' := fun he => h he.symm
      simp [dlookup, h1]

theorem dlookup_dictPop_self {α : Type} (m : List (String × α)) (k : String) :
    dlookup (dictPop m k) k = none := by
  induction m with
  | nil => rfl
  | cons p m ih =>
    unfold dictPop at ih ⊢
    by_cases hp : p.1 = k
    · simp [List.filter_cons, hp, ih]
    · simp only [List.filter_cons]
      have : (!(p.1 == k)) = true := by simp [hp]
      rw [if_pos this]
      simp [dlookup, hp, ih]

theorem dlookup_dictPop_ne {α : Type} (m : List (String × α)) (k k' : String)
    (h : k' ≠ k) : dlookup (dictPop m k) k' = dlookup m k' := by
  induction m with
  | nil => rfl
  | cons p m ih =>
    unfold dictPop at ih ⊢
    simp only [List.filter_cons]
    by_cases hp : p.1 = k
    · have h1 : ¬ k = k' := fun he => h he.symm
      have h2 : ¬ p.1 = k' := by rw [hp]; exact h1
      simp [hp, dlookup, h1, h2, ih]
    · have : (!(p.1 == k)) = true := by simp [hp]
      rw [if_pos this]
      by_cases hpk : p.1 = k'
      · simp [dlookup, hpk]
      · simp [dlookup, hpk, ih]

theorem mem_dictSet {α : Type} {m : List (String × α)} {k : String} {v : α} {q : String × α}
    (hq : q ∈ dictSet m k v) : q ∈ m ∨ q = ⟨k, v⟩ := by
  unfold dictSet at hq
  by_cases hs : (dlookup m k).isSome = true
  · rw [if_pos hs] at hq
    rcases List.mem_map.mp hq with ⟨p, hp, he⟩
    by_cases hpk : p.1 = k
    · rw [if_pos hpk] at he
      right; exact he.symm
    · rw [if_neg hpk] at he
      left; rw [← he]; exact hp
  · rw [if_neg hs] at hq
    rcases List.mem_append.mp hq with h1 | h1
    · left; exact h1
    · right; simpa using h1

theorem mem_dictPop {α : Type} {m : List (String × α)} {k : String} {q : String × α}
    (hq : q ∈ dictPop m k) : q ∈ m :=
  List.mem_of_mem_filter hq

theorem keys_dictSet {α : Type} (m : List (String × α)) (k : String) (v : α) :
    (dictSet m k v).map Prod.fst =
      if (dlookup m k).isSome then m.map Prod.fst else m.map Prod.fst ++ [k] := by
  unfold dictSet
  by_cases hs : (dlookup m k).isSome = true
  · rw [if_pos hs, if_pos hs, List.map_map]
    apply List.map_congr_left
    intro p _
    by_cases hp : p.1 = k
    · simp [hp]
    · simp [hp]
  · rw [if_neg hs, if_neg hs]
    simp

/-! ### Facts about color normalization -/

theorem lowerChar_hexChar {c : Char} (h : isHexChar c = true) :
    isLowerHexChar (lowerChar c) = true := by
  unfold isHexChar at h
  rw [decide_eq_true_eq] at h
  unfold lowerChar isLowerHexChar
  by_cases hc : 65 ≤ c.toNat ∧ c.toNat ≤ 90
  · rw [if_pos hc]
    have h6 : c.toNat = 65 ∨ c.toNat = 66 ∨ c.toNat = 67 ∨ c.toNat = 68 ∨ c.toNat = 69 ∨
        c.toNat = 70 := by omega
    rcases h6 with h' | h' | h' | h' | h' | h' <;> rw [h'] <;> decide
  · rw [if_neg hc]
    rw [decide_eq_true_eq]
    omega

theorem hexMatchL_lower {l : List Char} (h : hexMatchL l = true) :
    isNormalizedHexL (l.map lowerChar) = true := by
  cases l with
  | nil => exact Bool.noConfusion h
  | cons a rest =>
    simp only [hexMatchL, Bool.and_eq_true, beq_iff_eq] at h
    obtain ⟨⟨ha, hlen⟩, hall⟩ := h
    subst ha
    simp only [List.map_cons, isNormalizedHexL, Bool.and_eq_true, beq_iff_eq]
    refine ⟨⟨by decide, by rw [List.length_map]; exact hlen⟩, ?_⟩
    rw [List.all_eq_true] at hall ⊢
    intro x hx
    rcases List.mem_map.mp hx with ⟨y, hy, rfl⟩
    exact lowerChar_hexChar (hall y hy)

theorem pyLower_data (s : String) : (pyLower s).data = s.data.map lowerChar := rfl

theorem hexMatch_pyLower {s : String} (h : hexMatch s = true) :
    isNormalizedHex (pyLower s) = true := by
  unfold isNormalizedHex
  rw [pyLower_data]
  exact hexMatchL_lower h

theorem dlookup_mem {α : Type} {m : List (String × α)} {k : String} {a : α}
    (h : dlookup m k = some a) : ∃ k', (⟨k', a⟩ : String × α) ∈ m := by
  induction m with
  | nil => exact Option.noConfusion h
  | cons p m ih =>
    obtain ⟨x, y⟩ := p
    by_cases hp : x = k
    · have h' : y = a := by simpa [dlookup, hp] using h
      exact ⟨x, by rw [← h']; exact List.mem_cons_self _ _⟩
    · have h' : dlookup m k = some a := by simpa [dlookup, hp] using h
      rcases ih h' with ⟨k', hk'⟩
      exact ⟨k', List.mem_cons_of_mem _ hk'⟩

/-- Every color accepted by normalize_color is stored as a normalized hex value,
never as a raw color name. -/
theorem normalize_color_normalized {v c : String} (h : normalize_color v = some c) :
    isNormalizedHex c = true := by
  unfold normalize_color at h
  by_cases hm : hexMatch (pyStrip v) = true
  · rw [if_pos hm] at h
    rw [← Option.some.inj h]
    exact hexMatch_pyLower hm
  · rw [if_neg hm] at h
    rcases dlookup_mem h with ⟨k', hk'⟩
    have : (⟨k', c⟩ : String × String) ∈ COLOR_NAMES → isNormalizedHex c = true := by
      intro hmem
      unfold COLOR_NAMES at hmem
      simp only [List.mem_cons, List.mem_singleton, List.not_mem_nil, or_false] at hmem
      rcases hmem with h' | h' | h' | h' | h' | h' | h' | h' | h' <;>
        · simp only [Prod.mk.injEq] at h'
          rw [h'.2]
          decide
    exact this hk'

/-! ### Node model: the Mark Store of hw_server.py -/

/-- One stored mark of MarksState in hw_server.py. -/
structure Mark where
  row : Int
  col : Int
  color : String
  ts : Nat
deriving DecidableEq

/-- The node state: the insertion-ordered mark dictionary plus the store timestamp. -/
structure MarksState where
  marks : List (String × Mark)
  ts : Nat
deriving DecidableEq

/-- MarksState.set_mark: insert or overwrite a mark and refresh the store timestamp.
The wall-clock reading int(time.time()) is passed in as t. -/
def set_mark (s : MarksState) (mid : String) (row col : Int) (color : String) (t : Nat) :
    MarksState :=
  ⟨dictSet s.marks mid ⟨row, col, color, t⟩, t⟩

/-- MarksState.del_mark: remove the mark if present and report whether it existed. -/
def del_mark (s : MarksState) (mid : String) (t : Nat) : MarksState × Bool :=
  let ok := (dlookup s.marks mid).isSome
  ⟨⟨dictPop s.marks mid, if ok then t else s.ts⟩, ok⟩

/-- MarksState.clear: remove all marks. -/
def clearMarks (_s : MarksState) (t : Nat) : MarksState := ⟨[], t⟩

/-- One raw entry of an incoming marks payload. A missing or unparseable row or
col is modelled as none; a missing id or color is modelled as the empty string,
which is how the Python code coerces them before use. -/
structure MarkItem where
  id : String
  row : Option Int
  col : Option Int
  color : String
deriving DecidableEq

/-- The key under which a payload entry is stored: the stripped explicit id if
non-empty, otherwise the coordinate-derived key r{row}c{col}. -/
def deriveKey (idStr : String) (row col : Int) : String :=
  if pyStrip idStr = "" then "r" ++ toString row ++ "c" ++ toString col else pyStrip idStr

/-- Per-entry validation of MarksState.replace_all: the entry must carry parseable
row and col within the grid bounds and a color that normalizes; the result is the
storage key together with the validated row, col and normalized color. -/
def validItem (rowLen colLen : Nat) (it : MarkItem) : Option (String × Int × Int × String) :=
  match it.row, it.col with
  | some row, some col =>
    if 0 ≤ row ∧ row < (rowLen : Int) ∧ 0 ≤ col ∧ col < (colLen : Int) then
      match normalize_color it.color with
      | some hex => some ⟨deriveKey it.id row col, row, col, hex⟩
      | none => none
    else none
  | _, _ => none

/-- One loop iteration of MarksState.replace_all: install a validated entry,
silently skip an invalid one. -/
def installStep (rowLen colLen t : Nat) (acc : List (String × Mark)) (it : MarkItem) :
    List (String × Mark) :=
  match validItem rowLen colLen it with
  | some q => dictSet acc q.1 ⟨q.2.1, q.2.2.1, q.2.2.2, t⟩
  | none => acc

/-- MarksState.replace_all: discard the previous marks wholesale, then install the
entries of the batch that pass per-mark validation. -/
def replace_all (rowLen colLen t : Nat) (_s : MarksState) (items : List MarkItem) : MarksState :=
  ⟨items.foldl (installStep rowLen colLen t) [], t⟩

/-- POST /api/marks of hw_server.py: run replace_all and answer with the count of
marks held afterwards. -/
def api_marks (rowLen colLen t : Nat) (s : MarksState) (items : List MarkItem) :
    MarksState × Nat :=
  let s' := replace_all rowLen colLen t s items
  ⟨s', s'.marks.length⟩

/-- A node endpoint response: ok, or an error message with HTTP status 400. -/
inductive NodeResp where
  | ok : NodeResp
  | err : String → NodeResp
deriving DecidableEq

/-- POST /api/mark of hw_server.py: delete by key when on=false, otherwise
validate bounds and color and set the mark. -/
def node_api_mark (rowLen colLen t : Nat) (s : MarksState) (p : MarkItem) (onFlag : Bool) :
    MarksState × NodeResp :=
  match p.row, p.col with
  | some row, some col =>
    if onFlag = false then ⟨(del_mark s (deriveKey p.id row col) t).1, .ok⟩
    else if ¬ (0 ≤ row ∧ row < (rowLen : Int) ∧ 0 ≤ col ∧ col < (colLen : Int)) then
      ⟨s, .err "row/col fuera de rango"⟩
    else
      match normalize_color p.color with
      | some hex => ⟨set_mark s (deriveKey p.id row col) row col hex t, .ok⟩
      | none => ⟨s, .err "color invalido"⟩
  | _, _ =>
    if onFlag = false then
      if pyStrip p.id = "" then ⟨s, .err "id o (row,col) requeridos"⟩
      else ⟨(del_mark s (pyStrip p.id) t).1, .ok⟩
    else ⟨s, .err "row/col requeridos"⟩

/-- POST /api/trace of hw_server.py (compat endpoint): manage the single mark
with the fixed id default. -/
def node_api_trace (rowLen colLen t : Nat) (s : MarksState) (row col : Option Int)
    (colorStr : String) (onFlag : Bool) : MarksState × NodeResp :=
  if onFlag = false then ⟨(del_mark s "default" t).1, .ok⟩
  else
    match normalize_color colorStr with
    | none => ⟨s, .err "color requerido y valido"⟩
    | some hex =>
      match row, col with
      | some r, some c =>
        if ¬ (0 ≤ r ∧ r < (rowLen : Int)) then ⟨s, .err "row fuera de rango"⟩
        else if ¬ (0 ≤ c ∧ c < (colLen : Int)) then ⟨s, .err "col fuera de rango"⟩
        else ⟨set_mark s "default" r c hex t, .ok⟩
      | _, _ => ⟨s, .err "row/col requeridos"⟩

/-- POST /api/led of hw_server.py (compat endpoint): on=false clears every mark,
on=true places the default mark at the origin cell. -/
def node_api_led (t : Nat) (s : MarksState) (colorStr : String) (onFlag : Bool) :
    MarksState × NodeResp :=
  match normalize_color colorStr with
  | none => ⟨s, .err "color invalido"⟩
  | some hex =>
    if onFlag = false then ⟨clearMarks s t, .ok⟩
    else ⟨set_mark s "default" 0 0 hex t, .ok⟩

/-- The externally reachable mutating operations of the node. -/
inductive NodeOp where
  | opMark : MarkItem → Bool → NodeOp
  | opTrace : Option Int → Option Int → String → Bool → NodeOp
  | opLed : String → Bool → NodeOp
  | opReplace : List MarkItem → NodeOp

/-- The state reached by one externally reachable node operation. -/
def applyOp (rowLen colLen t : Nat) (s : MarksState) : NodeOp → MarksState
  | .opMark p onFlag => (node_api_mark rowLen colLen t s p onFlag).1
  | .opTrace r c colorStr onFlag => (node_api_trace rowLen colLen t s r c colorStr onFlag).1
  | .opLed colorStr onFlag => (node_api_led t s colorStr onFlag).1
  | .opReplace items => (api_marks rowLen colLen t s items).1

/-! ### Projection resolver: the line coloring of the home page renderer -/

/-- The default cycle length of the collision round-robin: CYCLE_MS in
hw_server.py defaults to 1000 ms. -/
def CYCLE_MS : Nat := 1000

/-- The renderer coerces a missing color with String(m.color||...): an empty
color string falls back to the default green. -/
def jsColor (s : String) : String := if s = "" then "#00ff00" else s

/-- A mark touches the row-line r when its coordinates are integers inside the
grid and its row equals r (the renderer filters exactly this way). -/
def touchesRow (rows cols r : Int) (m : Mark) : Bool :=
  decide (0 ≤ m.row ∧ m.row < rows ∧ 0 ≤ m.col ∧ m.col < cols ∧ m.row = r)

/-- A mark touches the column-line c when its coordinates are integers inside the
grid and its col equals c. -/
def touchesCol (rows cols c : Int) (m : Mark) : Bool :=
  decide (0 ≤ m.row ∧ m.row < rows ∧ 0 ≤ m.col ∧ m.col < cols ∧ m.col = c)

/-- leftMap[row] of the renderer: the ordered list of colors of all marks
touching the row-line. -/
def rowLineColors (rows cols r : Int) (marks : List (String × Mark)) : List String :=
  (marks.filter fun p => touchesRow rows cols r p.2).map fun p => jsColor p.2.color

/-- topMap[col] of the renderer: the ordered list of colors of all marks touching
the column-line. -/
def colLineColors (rows cols c : Int) (marks : List (String × Mark)) : List String :=
  (marks.filter fun p => touchesCol rows cols c p.2).map fun p => jsColor p.2.color

/-- drawTop/drawLeft of the renderer: with more than one color on the line the
shown color is colors[floor(now / CYCLE_MS) mod n], otherwise colors[0]. -/
def displayedColor (cycleMs nowMs : Nat) (colors : List String) : String :=
  if 1 < colors.length then colors.getD (nowMs / cycleMs % colors.length) "#00ff00"
  else colors.getD 0 "#00ff00"

/-! ### Orchestrator model: client_app.py -/

/-- One Topology Registry record: CABINETS[id] in client_app.py. -/
structure CabMeta where
  url : String
  row_len : Int
  col_len : Int
  aliasName : String
deriving DecidableEq

/-- The state report a probed node answers at /api/state, as far as registration
reads it. -/
structure StateReport where
  cabinet_id : String
  row_len : Int
  col_len : Int
deriving DecidableEq

/-- The response of the registration endpoint. -/
inductive RegResp where
  | okReg : String → RegResp
  | badRequest : RegResp
  | invalidDiscovery : RegResp
  | badGateway : RegResp
deriving DecidableEq

/-- Python url.rstrip applied to the slash character. -/
def rstripSlash (s : String) : String :=
  ⟨(s.data.reverse.dropWhile fun c => c == '/').reverse⟩

/-- POST /api/cabinets of client_app.py: probe the URL (the probe outcome is the
external transport collaborator, none modelling any probe failure), require a
non-empty node-reported cabinet id and positive dimensions, then store the entry
keyed by the node-reported id. -/
def api_cabinets_add (cabs : List (String × CabMeta)) (aliasStr urlStr : String)
    (probe : Option StateReport) : List (String × CabMeta) × RegResp :=
  let aliasName := pyStrip aliasStr
  let url := pyStrip urlStr
  if url = "" then ⟨cabs, .badRequest⟩
  else
    match probe with
    | none => ⟨cabs, .badGateway⟩
    | some r =>
      let sid := pyStrip r.cabinet_id
      if sid = "" ∨ r.row_len ≤ 0 ∨ r.col_len ≤ 0 then ⟨cabs, .invalidDiscovery⟩
      else ⟨dictSet cabs sid ⟨rstripSlash url, r.row_len, r.col_len, aliasName⟩, .okReg sid⟩

/-- One item of the GET /api/cabinets response. -/
structure CabEntry where
  id : String
  url : String
  row_len : Int
  col_len : Int
  aliasName : String
deriving DecidableEq

/-- GET /api/cabinets of client_app.py: list the registry in its own iteration
order. -/
def api_cabinets_list (cabs : List (String × CabMeta)) : List CabEntry :=
  cabs.map fun p => ⟨p.1, p.2.url, p.2.row_len, p.2.col_len, p.2.aliasName⟩

/-- One Desired-State Tracker mark: DESIRED[cabinet].marks[key] in client_app.py.
The ts field is always written as 0 by the tracker. -/
structure DMark where
  row : Int
  col : Int
  color : String
  ts : Nat
deriving DecidableEq

/-- The Desired-State Tracker: cabinet id to its logical mark map. -/
abbrev Desired := List (String × List (String × DMark))

/-- The JSON payload of POST /api/mark on the orchestrator. -/
structure OrchPayload where
  cabinet : String
  id : String
  row : Option Int
  col : Option Int
  color : String
  onFlag : Bool
deriving DecidableEq

/-- The orchestrator response surfaced to the client. -/
inductive OrchResp where
  | ok : OrchResp
  | badRequest : String → OrchResp
  | notFound : String → OrchResp
deriving DecidableEq

/-- Serialization of a tracker mark map into the full-replace push body. -/
def pushItems (marks : List (String × DMark)) : List MarkItem :=
  marks.map fun p => ⟨p.1, some p.2.row, some p.2.col, p.2.color⟩

/-- POST /api/mark of client_app.py up to the push: update the Desired-State
Tracker and produce the marks list pushed to the node, or an error. The returned
fields are the new tracker state, the push body when a push happens, and the
response as computed when the transport delivers the push successfully. -/
def orch_api_mark (cabs : List (String × CabMeta)) (desired : Desired) (p : OrchPayload) :
    Desired × Option (List MarkItem) × OrchResp :=
  let cabinet := pyStrip p.cabinet
  if cabinet = "" then ⟨desired, none, .badRequest "cabinet requerido"⟩
  else
    match dlookup cabs cabinet with
    | none => ⟨desired, none, .notFound "armario no registrado"⟩
    | some _ =>
      let marks0 := (dlookup desired cabinet).getD []
      let desired1 := dictSet desired cabinet marks0
      match p.row, p.col with
      | some row, some col =>
        let key := deriveKey p.id row col
        if p.onFlag = false then
          let marks1 := dictPop marks0 key
          ⟨dictSet desired1 cabinet marks1, some (pushItems marks1), .ok⟩
        else
          let color := pyStrip p.color
          if color = "" then ⟨desired1, none, .badRequest "color requerido"⟩
          else
            let marks1 := dictSet marks0 key ⟨row, col, color, 0⟩
            ⟨dictSet desired1 cabinet marks1, some (pushItems marks1), .ok⟩
      | _, _ => ⟨desired1, none, .badRequest "row/col requeridos"⟩

/-- The end-to-end apply-mark intent: the orchestrator handler followed, when it
pushes, by the node executing the full replace. Returns the tracker state, the
node state and the response to the caller. -/
def e2e_apply_mark (rowLen colLen t : Nat) (cabs : List (String × CabMeta))
    (desired : Desired) (node : MarksState) (p : OrchPayload) :
    Desired × MarksState × OrchResp :=
  match orch_api_mark cabs desired p with
  | ⟨d, some items, r⟩ => ⟨d, (api_marks rowLen colLen t node items).1, r⟩
  | ⟨d, none, r⟩ => ⟨d, node, r⟩

/-! ### Helper lemmas about dictionaries and replace_all -/

theorem dlookup_isSome_iff {α : Type} (m : List (String × α)) (k : String) :
    (dlookup m k).isSome = true ↔ ∃ v, (⟨k, v⟩ : String × α) ∈ m := by
  induction m with
  | nil => simp [dlookup]
  | cons p m ih =>
    obtain ⟨x, y⟩ := p
    by_cases hp : x = k
    · subst hp
      simp [dlookup]
    · have hp' : ¬ k = x := fun he => hp he.symm
      simp [dlookup, hp, hp', ih, Prod.mk.injEq]

theorem dlookup_mem_key {α : Type} {m : List (String × α)} {k : String} {a : α}
    (h : dlookup m k = some a) : (⟨k, a⟩ : String × α) ∈ m := by
  induction m with
  | nil => exact Option.noConfusion h
  | cons p m ih =>
    obtain ⟨x, y⟩ := p
    by_cases hp : x = k
    · have h' : y = a := by simpa [dlookup, hp] using h
      subst hp
      exact List.mem_cons.mpr (Or.inl (by rw [h']))
    · have h' : dlookup m k = some a := by simpa [dlookup, hp] using h
      exact List.mem_cons_of_mem _ (ih h')

/-- The last entry of a replace-all batch that passes validation and resolves to
the given key: its data is what the full replace leaves stored under that key. -/
def lastValidFor (rowLen colLen : Nat) (items : List MarkItem) (k : String) :
    Option (Int × Int × String) :=
  dlookup ((items.filterMap (validItem rowLen colLen)).reverse) k

theorem foldl_installStep_dlookup (rowLen colLen t : Nat) (items : List MarkItem)
    (acc : List (String × Mark)) (k : String) :
    dlookup (items.foldl (installStep rowLen colLen t) acc) k =
      match lastValidFor rowLen colLen items k with
      | some d => some ⟨d.1, d.2.1, d.2.2, t⟩
      | none => dlookup acc k := by
  induction items generalizing acc with
  | nil => rfl
  | cons it rest ih =>
    rw [List.foldl_cons, ih]
    unfold lastValidFor installStep
    cases hv : validItem rowLen colLen it with
    | none =>
      simp only [List.filterMap_cons, hv]
    | some q =>
      simp only [List.filterMap_cons, hv, List.reverse_cons]
      rw [dlookup_append]
      cases hr : dlookup ((rest.filterMap (validItem rowLen colLen)).reverse) k with
      | some d => simp only [lastValidFor, hr]
      | none =>
        simp only [lastValidFor, hr]
        by_cases hqk : q.1 = k
        · subst hqk
          simp only [dlookup, if_pos rfl]
          exact dlookup_dictSet_self acc q.1 _
        · have h1 : ¬ q.1 = k := hqk
          simp only [dlookup, if_neg h1]
          exact dlookup_dictSet_ne acc q.1 k _ (fun he => h1 he.symm)

theorem replace_all_dlookup (rowLen colLen t : Nat) (s : MarksState) (items : List MarkItem)
    (k : String) :
    dlookup (replace_all rowLen colLen t s items).marks k =
      (lastValidFor rowLen colLen items k).map fun d => (⟨d.1, d.2.1, d.2.2, t⟩ : Mark) := by
  unfold replace_all
  rw [show (⟨items.foldl (installStep rowLen colLen t) [], t⟩ : MarksState).marks =
    items.foldl (installStep rowLen colLen t) [] from rfl]
  rw [foldl_installStep_dlookup]
  cases h : lastValidFor rowLen colLen items k with
  | some d => rfl
  | none => rfl

theorem lastValidFor_isSome_iff (rowLen colLen : Nat) (items : List MarkItem) (k : String) :
    (lastValidFor rowLen colLen items k).isSome = true ↔
      ∃ it ∈ items, ∃ d, validItem rowLen colLen it = some ⟨k, d⟩ := by
  unfold lastValidFor
  rw [dlookup_isSome_iff]
  constructor
  · rintro ⟨v, hv⟩
    rw [List.mem_reverse] at hv
    rcases List.mem_filterMap.mp hv with ⟨it, hit, hv'⟩
    exact ⟨it, hit, v, hv'⟩
  · rintro ⟨it, hit, d, hd⟩
    refine ⟨d, ?_⟩
    rw [List.mem_reverse]
    exact List.mem_filterMap.mpr ⟨it, hit, hd⟩

theorem lastValidFor_mem {rowLen colLen : Nat} {items : List MarkItem} {k : String}
    {d : Int × Int × String} (h : lastValidFor rowLen colLen items k = some d) :
    ∃ it ∈ items, validItem rowLen colLen it = some ⟨k, d⟩ := by
  unfold lastValidFor at h
  have hm := dlookup_mem_key h
  rw [List.mem_reverse] at hm
  rcases List.mem_filterMap.mp hm with ⟨it, hit, hv⟩
  exact ⟨it, hit, hv⟩

/-! ### Timestamp-stripped view of the mark dictionary, for idempotence -/

/-- The visible content of a mark dictionary: keys with row, col and color, the
timestamps forgotten. -/
def stripTs (m : List (String × Mark)) : List (String × Int × Int × String) :=
  m.map fun p => ⟨p.1, p.2.row, p.2.col, p.2.color⟩

theorem dlookup_stripTs (m : List (String × Mark)) (k : String) :
    dlookup (stripTs m) k =
      (dlookup m k).map fun v => (⟨v.row, v.col, v.color⟩ : Int × Int × String) := by
  induction m with
  | nil => rfl
  | cons p m ih =>
    by_cases hp : p.1 = k
    · simp [stripTs, dlookup, hp]
    · simpa [stripTs, dlookup, hp] using ih

theorem stripTs_dictSet (m : List (String × Mark)) (k : String) (v : Mark) :
    stripTs (dictSet m k v) = dictSet (stripTs m) k ⟨v.row, v.col, v.color⟩ := by
  unfold dictSet
  rw [dlookup_stripTs]
  cases hl : dlookup m k with
  | some w =>
    simp only [hl, Option.map_some', Option.isSome_some, if_true]
    unfold stripTs
    rw [List.map_map, List.map_map]
    apply List.map_congr_left
    intro p _
    by_cases hp : p.1 = k
    · simp [hp]
    · simp [hp]
  | none =>
    simp only [hl, Option.map_none', Option.isSome_none, Bool.false_eq_true, if_false]
    simp [stripTs]

/-- The replace-all install loop with the timestamps forgotten. -/
def installStepNoTs (rowLen colLen : Nat) (acc : List (String × Int × Int × String))
    (it : MarkItem) : List (String × Int × Int × String) :=
  match validItem rowLen colLen it with
  | some q => dictSet acc q.1 q.2
  | none => acc

theorem stripTs_foldl (rowLen colLen t : Nat) (items : List MarkItem)
    (acc : List (String × Mark)) :
    stripTs (items.foldl (installStep rowLen colLen t) acc) =
      items.foldl (installStepNoTs rowLen colLen) (stripTs acc) := by
  induction items generalizing acc with
  | nil => rfl
  | cons it rest ih =>
    rw [List.foldl_cons, List.foldl_cons, ih]
    congr 1
    unfold installStep installStepNoTs
    cases hv : validItem rowLen colLen it with
    | none => rfl
    | some q => exact stripTs_dictSet acc q.1 _

/-! ### Store-invariant helpers -/

/-- A well-formed stored mark: coordinates inside the declared grid bounds and a
normalized hex color. -/
def MarkOK (rowLen colLen : Nat) (m : Mark) : Prop :=
  0 ≤ m.row ∧ m.row < (rowLen : Int) ∧ 0 ≤ m.col ∧ m.col < (colLen : Int) ∧
    isNormalizedHex m.color = true

/-- The Mark Store invariant: every stored mark is well-formed. -/
def StoreInv (rowLen colLen : Nat) (s : MarksState) : Prop :=
  ∀ p ∈ s.marks, MarkOK rowLen colLen p.2

theorem markOK_validItem {rowLen colLen : Nat} {it : MarkItem} {q : String × Int × Int × String}
    (h : validItem rowLen colLen it = some q) (t : Nat) :
    MarkOK rowLen colLen ⟨q.2.1, q.2.2.1, q.2.2.2, t⟩ := by
  obtain ⟨iid, irow, icol, icolor⟩ := it
  unfold validItem at h
  cases irow with
  | none => exact Option.noConfusion h
  | some row =>
    cases icol with
    | none => exact Option.noConfusion h
    | some col =>
      simp only at h
      split at h
      · rename_i hb
        cases hnc : normalize_color icolor with
        | none => rw [hnc] at h; exact Option.noConfusion h
        | some hex =>
          rw [hnc] at h
          have hq : q = ⟨deriveKey iid row col, row, col, hex⟩ := (Option.some.inj h).symm
          rw [hq]
          exact ⟨hb.1, hb.2.1, hb.2.2.1, hb.2.2.2, normalize_color_normalized hnc⟩
      · exact Option.noConfusion h

theorem inv_insert {rowLen colLen : Nat} {marks : List (String × Mark)}
    (h : ∀ p ∈ marks, MarkOK rowLen colLen p.2) {k : String} {v : Mark}
    (hv : MarkOK rowLen colLen v) :
    ∀ p ∈ dictSet marks k v, MarkOK rowLen colLen p.2 := by
  intro p hp
  rcases mem_dictSet hp with h1 | h1
  · exact h p h1
  · rw [h1]; exact hv

theorem inv_pop {rowLen colLen : Nat} {marks : List (String × Mark)}
    (h : ∀ p ∈ marks, MarkOK rowLen colLen p.2) (k : String) :
    ∀ p ∈ dictPop marks k, MarkOK rowLen colLen p.2 :=
  fun p hp => h p (mem_dictPop hp)

theorem inv_replace_all (rowLen colLen t : Nat) (s : MarksState) (items : List MarkItem) :
    StoreInv rowLen colLen (replace_all rowLen colLen t s items) := by
  unfold replace_all StoreInv
  have main : ∀ (l : List MarkItem) (acc : List (String × Mark)),
      (∀ p ∈ acc, MarkOK rowLen colLen p.2) →
      ∀ p ∈ l.foldl (installStep rowLen colLen t) acc, MarkOK rowLen colLen p.2 := by
    intro l
    induction l with
    | nil => intro acc hacc; exact hacc
    | cons it rest ih =>
      intro acc hacc
      rw [List.foldl_cons]
      apply ih
      unfold installStep
      cases hv : validItem rowLen colLen it with
      | none => exact hacc
      | some q => exact inv_insert hacc (markOK_validItem hv t)
  exact main items [] (by intro p hp; exact absurd hp (List.not_mem_nil p))

theorem getD_of_all {l : List String} {c : String} (h : ∀ x ∈ l, x = c) :
    ∀ (i : Nat), i < l.length → ∀ d, l.getD i d = c := by
  induction l with
  | nil => intro i hi _; simp at hi
  | cons a l ih =>
    intro i hi d
    cases i with
    | zero => simpa [List.getD] using h a (List.mem_cons_self a l)
    | succ n =>
      have hn : n < l.length := by simpa using hi
      have := ih (fun x hx => h x (List.mem_cons_of_mem a hx)) n hn d
      simpa [List.getD] using this

/-- With a single color on a line (however many marks carry it) the renderer
shows that color whatever the clock says. -/
theorem displayedColor_single {l : List String} {colr : String} (hne : l ≠ [])
    (hall : ∀ x ∈ l, x = colr) (cy t : Nat) : displayedColor cy t l = colr := by
  unfold displayedColor
  by_cases h1 : 1 < l.length
  · rw [if_pos h1]
    exact getD_of_all hall _ (Nat.mod_lt _ (by omega)) _
  · rw [if_neg h1]
    have hp : 0 < l.length := List.length_pos.mpr hne
    exact getD_of_all hall 0 (by omega) _

/-! ### Claim theorems -/

/-- Claim C2: replaceAll discards the whole previous mark set, installs exactly
the entries that pass per-mark validation (keyed, the last entry per key), skips
failing entries without failing the call, and the response reports the count of
marks actually installed; one valid plus one out-of-range entry installs exactly
the valid one with count 1. -/
theorem c2_replace_all_validation (rowLen colLen t : Nat) (s s' : MarksState)
    (items : List MarkItem) (k : String) :
    replace_all rowLen colLen t s items = replace_all rowLen colLen t s' items ∧
    ((dlookup (replace_all rowLen colLen t s items).marks k).isSome = true ↔
      ∃ it ∈ items, ∃ d, validItem rowLen colLen it = some ⟨k, d⟩) ∧
    (∀ m : Mark, dlookup (replace_all rowLen colLen t s items).marks k = some m →
      ∃ it ∈ items, validItem rowLen colLen it = some ⟨k, m.row, m.col, m.color⟩) ∧
    (api_marks 3 3 9 ⟨[⟨"old", ⟨0, 0, "#ffffff", 0⟩⟩], 0⟩
        [⟨"", some 1, some 2, "green"⟩, ⟨"", some 5, some 0, "#ff0000"⟩]).2 = 1 ∧
    (api_marks 3 3 9 ⟨[⟨"old", ⟨0, 0, "#ffffff", 0⟩⟩], 0⟩
        [⟨"", some 1, some 2, "green"⟩, ⟨"", some 5, some 0, "#ff0000"⟩]).1.marks =
      [⟨"r1c2", ⟨1, 2, "#00ff00", 9⟩⟩] := by
  refine ⟨rfl, ?_, ?_, by decide, by decide⟩
  · rw [replace_all_dlookup, ← lastValidFor_isSome_iff rowLen colLen items k]
    cases h : lastValidFor rowLen colLen items k <;> simp [h]
  · intro m hm
    rw [replace_all_dlookup] at hm
    cases h : lastValidFor rowLen colLen items k with
    | none => rw [h] at hm; exact Option.noConfusion hm
    | some d =>
      rw [h] at hm
      have hmd : m = ⟨d.1, d.2.1, d.2.2, t⟩ := (Option.some.inj hm).symm
      rcases lastValidFor_mem h with ⟨it, hit, hv⟩
      refine ⟨it, hit, ?_⟩
      rw [hmd]
      exact hv

/-- A witness for C2 at a concrete input. -/
theorem c2_witness :
    ∃ it ∈ ([⟨"", some 1, some 2, "green"⟩] : List MarkItem),
      validItem 3 3 it = some ⟨"r1c2", 1, 2, "#00ff00"⟩ :=
  (c2_replace_all_validation 3 3 9 ⟨[], 0⟩ ⟨[], 0⟩
      [⟨"", some 1, some 2, "green"⟩] "r1c2").2.2.1 ⟨1, 2, "#00ff00", 9⟩ (by decide)

/-- Claim C4: replaceAll is idempotent — its result never depends on the prior
store content, so a second application of the same batch reproduces the first
application exactly at equal wall-clock readings and reproduces the same visible
marks (keys, coordinates, colors) at any wall-clock readings. -/
theorem c4_replace_all_idempotent (rowLen colLen t t1 t2 : Nat) (s s' : MarksState)
    (items : List MarkItem) :
    replace_all rowLen colLen t (replace_all rowLen colLen t1 s items) items =
      replace_all rowLen colLen t s' items ∧
    stripTs (replace_all rowLen colLen t2 (replace_all rowLen colLen t1 s items) items).marks =
      stripTs (replace_all rowLen colLen t1 s items).marks := by
  refine ⟨rfl, ?_⟩
  show stripTs (items.foldl (installStep rowLen colLen t2) []) =
    stripTs (items.foldl (installStep rowLen colLen t1) [])
  rw [stripTs_foldl, stripTs_foldl]

/-- Claim C9: set followed by snapshot holds exactly the set mark under its id,
delete removes it, and delete reports precisely whether the id existed, without
ever failing. -/
theorem c9_set_snapshot_delete (rowLen colLen : Nat) (s : MarksState) (mid : String)
    (row col : Int) (colorStr hex : String) (t t' : Nat)
    (_hrow : 0 ≤ row ∧ row < (rowLen : Int)) (_hcol : 0 ≤ col ∧ col < (colLen : Int))
    (_hcolor : normalize_color colorStr = some hex) :
    dlookup (set_mark s mid row col hex t).marks mid = some ⟨row, col, hex, t⟩ ∧
    (set_mark ⟨[], 0⟩ mid row col hex t).marks = [⟨mid, ⟨row, col, hex, t⟩⟩] ∧
    dlookup ((del_mark (set_mark s mid row col hex t) mid t').1).marks mid = none ∧
    (del_mark (set_mark s mid row col hex t) mid t').2 = true ∧
    (∀ (s₂ : MarksState) (k : String) (u : Nat),
      (del_mark s₂ k u).2 = (dlookup s₂.marks k).isSome) := by
  refine ⟨dlookup_dictSet_self s.marks mid _, ?_, ?_, ?_, fun s₂ k u => rfl⟩
  · show dictSet [] mid (⟨row, col, hex, t⟩ : Mark) = [⟨mid, ⟨row, col, hex, t⟩⟩]
    rfl
  · exact dlookup_dictPop_self _ mid
  · show (dlookup (dictSet s.marks mid ⟨row, col, hex, t⟩) mid).isSome = true
    rw [dlookup_dictSet_self]
    rfl

/-- A witness for C9 at a concrete input. -/
theorem c9_witness :
    dlookup (set_mark ⟨[], 0⟩ "m1" 1 2 "#ff0000" 5).marks "m1" = some ⟨1, 2, "#ff0000", 5⟩ :=
  (c9_set_snapshot_delete 3 3 ⟨[], 0⟩ "m1" 1 2 "red" "#ff0000" 5 6
    (by decide) (by decide) (by decide)).1

/-- Claim C10: entries of a replace-all batch that resolve to the same key
collapse into one installed mark holding the data of the last such entry, and
the reported count can be strictly below the number of individually valid
entries: two valid entries with the same explicit id install one mark, count 1. -/
theorem c10_duplicate_keys_collapse (rowLen colLen t : Nat) (s : MarksState)
    (items : List MarkItem) (k : String) :
    dlookup (replace_all rowLen colLen t s items).marks k =
      (lastValidFor rowLen colLen items k).map (fun d => (⟨d.1, d.2.1, d.2.2, t⟩ : Mark)) ∧
    (api_marks 3 3 7 ⟨[], 0⟩
        [⟨"m", some 0, some 0, "red"⟩, ⟨"m", some 1, some 1, "blue"⟩]).2 = 1 ∧
    (api_marks 3 3 7 ⟨[], 0⟩
        [⟨"m", some 0, some 0, "red"⟩, ⟨"m", some 1, some 1, "blue"⟩]).1.marks =
      [⟨"m", ⟨1, 1, "#0000ff", 7⟩⟩] ∧
    (([⟨"m", some 0, some 0, "red"⟩, ⟨"m", some 1, some 1, "blue"⟩] : List MarkItem).filterMap
        (validItem 3 3)).length = 2 :=
  ⟨replace_all_dlookup rowLen colLen t s items k, by decide, by decide, by decide⟩

/-- Claim C3: a line touched by a single color displays it continuously; a line
touched by an ordered color list of more than one element displays
colors[floor(now / cycle) mod len(colors)]; the default cycle length is 1000 ms,
so red/blue alternate over the 1000 ms windows of the clock. -/
theorem c3_line_display (cycleMs nowMs : Nat) (rows cols r c : Int)
    (marks : List (String × Mark)) :
    (∀ colr : String, rowLineColors rows cols r marks ≠ [] →
      (∀ x ∈ rowLineColors rows cols r marks, x = colr) →
      displayedColor cycleMs nowMs (rowLineColors rows cols r marks) = colr) ∧
    (1 < (rowLineColors rows cols r marks).length →
      displayedColor cycleMs nowMs (rowLineColors rows cols r marks) =
        (rowLineColors rows cols r marks).getD
          (nowMs / cycleMs % (rowLineColors rows cols r marks).length) "#00ff00") ∧
    (∀ colr : String, colLineColors rows cols c marks ≠ [] →
      (∀ x ∈ colLineColors rows cols c marks, x = colr) →
      displayedColor cycleMs nowMs (colLineColors rows cols c marks) = colr) ∧
    (1 < (colLineColors rows cols c marks).length →
      displayedColor cycleMs nowMs (colLineColors rows cols c marks) =
        (colLineColors rows cols c marks).getD
          (nowMs / cycleMs % (colLineColors rows cols c marks).length) "#00ff00") ∧
    CYCLE_MS = 1000 ∧
    (∀ n : Nat, n < 1000 → displayedColor CYCLE_MS n ["#ff0000", "#0000ff"] = "#ff0000") ∧
    (∀ n : Nat, 1000 ≤ n → n < 2000 → displayedColor CYCLE_MS n ["#ff0000", "#0000ff"] =
      "#0000ff") := by
  refine ⟨fun colr hne hall => displayedColor_single hne hall cycleMs nowMs,
    fun h1 => ?_, fun colr hne hall => displayedColor_single hne hall cycleMs nowMs,
    fun h1 => ?_, rfl, ?_, ?_⟩
  · unfold displayedColor
    rw [if_pos h1]
  · unfold displayedColor
    rw [if_pos h1]
  · intro n hn
    have hd : n / 1000 = 0 := by omega
    unfold CYCLE_MS displayedColor
    rw [if_pos (by decide)]
    rw [hd]
    decide
  · intro n hn1 hn2
    have hd : n / 1000 = 1 := by omega
    unfold CYCLE_MS displayedColor
    rw [if_pos (by decide)]
    rw [hd]
    decide

/-- A witness for C3 at a concrete input. -/
theorem c3_witness : displayedColor CYCLE_MS 1500 ["#ff0000", "#0000ff"] = "#0000ff" :=
  (c3_line_display 1000 0 3 3 0 0 []).2.2.2.2.2.2 1500 (by decide) (by decide)

theorem inv_node_api_mark (rowLen colLen t : Nat) (s : MarksState) (q : MarkItem)
    (onFlag : Bool) (hs : StoreInv rowLen colLen s) :
    StoreInv rowLen colLen (node_api_mark rowLen colLen t s q onFlag).1 := by
  unfold node_api_mark
  split
  · split
    · intro pr hpr
      exact hs pr (mem_dictPop hpr)
    · split
      · exact hs
      · split
        · rename_i row col hb ho hex hnc
          rw [not_not] at hb
          intro pr hpr
          rcases mem_dictSet hpr with hm | hm
          · exact hs pr hm
          · rw [hm]
            exact ⟨hb.1, hb.2.1, hb.2.2.1, hb.2.2.2, normalize_color_normalized hnc⟩
        · exact hs
  · split
    · split
      · exact hs
      · intro pr hpr
        exact hs pr (mem_dictPop hpr)
    · exact hs

theorem inv_node_api_trace (rowLen colLen t : Nat) (s : MarksState) (prow pcol : Option Int)
    (colorStr : String) (onFlag : Bool) (hs : StoreInv rowLen colLen s) :
    StoreInv rowLen colLen (node_api_trace rowLen colLen t s prow pcol colorStr onFlag).1 := by
  unfold node_api_trace
  split
  · intro pr hpr
    exact hs pr (mem_dictPop hpr)
  · split
    · exact hs
    · split
      · split
        · exact hs
        · split
          · exact hs
          · rename_i hex hnc row col heqr heqc hb1 hb2
            rw [not_not] at hb1 hb2
            intro pr hpr
            rcases mem_dictSet hpr with hm | hm
            · exact hs pr hm
            · rw [hm]
              exact ⟨hb1.1, hb1.2, hb2.1, hb2.2, normalize_color_normalized hnc⟩
      · exact hs

theorem inv_node_api_led (rowLen colLen t : Nat) (s : MarksState) (colorStr : String)
    (onFlag : Bool) (hr : 0 < rowLen) (hc : 0 < colLen) (hs : StoreInv rowLen colLen s) :
    StoreInv rowLen colLen (node_api_led t s colorStr onFlag).1 := by
  unfold node_api_led
  split
  · exact hs
  · rename_i hex hnc
    split
    · intro pr hpr
      exact absurd hpr (List.not_mem_nil pr)
    · intro pr hpr
      rcases mem_dictSet hpr with hm | hm
      · exact hs pr hm
      · rw [hm]
        refine ⟨le_refl 0, ?_, le_refl 0, ?_, normalize_color_normalized hnc⟩
        · show (0 : Int) < (rowLen : Int)
          exact_mod_cast hr
        · show (0 : Int) < (colLen : Int)
          exact_mod_cast hc

/-- Claim C6: every externally reachable node operation (single-mark upsert, the
compat trace and led endpoints, full replace) preserves the Mark Store
invariant: stored coordinates lie inside the declared grid bounds and stored
colors are normalized hex values. -/
theorem c6_store_invariant (rowLen colLen t : Nat) (s : MarksState) (op : NodeOp)
    (hr : 0 < rowLen) (hc : 0 < colLen) (hs : StoreInv rowLen colLen s) :
    StoreInv rowLen colLen (applyOp rowLen colLen t s op) := by
  cases op with
  | opReplace items => exact inv_replace_all rowLen colLen t s items
  | opLed colorStr onFlag => exact inv_node_api_led rowLen colLen t s colorStr onFlag hr hc hs
  | opMark q onFlag => exact inv_node_api_mark rowLen colLen t s q onFlag hs
  | opTrace prow pcol colorStr onFlag =>
    exact inv_node_api_trace rowLen colLen t s prow pcol colorStr onFlag hs

/-- A witness for C6 at a concrete input. -/
theorem c6_witness : StoreInv 3 3 (applyOp 3 3 5 ⟨[], 0⟩ (NodeOp.opLed "red" true)) :=
  c6_store_invariant 3 3 5 ⟨[], 0⟩ (NodeOp.opLed "red" true) (by decide) (by decide)
    (by intro p hp; exact absurd hp (List.not_mem_nil p))

/-- Evaluation of the orchestrator apply-mark handler on an upsert (on=true)
intent addressed to a registered cabinet with a non-empty color: the
Desired-State Tracker entry is updated under the resolved key and the whole
tracker mark map is pushed. -/
theorem orch_api_mark_on_upsert (cabs : List (String × CabMeta)) (desired : Desired)
    (meta : CabMeta) (cab pid : String) (row col : Int) (cstr : String)
    (hcab : pyStrip cab ≠ "") (hmeta : dlookup cabs (pyStrip cab) = some meta)
    (hc : pyStrip cstr ≠ "") :
    orch_api_mark cabs desired ⟨cab, pid, some row, some col, cstr, true⟩ =
      ⟨dictSet (dictSet desired (pyStrip cab) ((dlookup desired (pyStrip cab)).getD []))
          (pyStrip cab)
          (dictSet ((dlookup desired (pyStrip cab)).getD []) (deriveKey pid row col)
            ⟨row, col, pyStrip cstr, 0⟩),
        some (pushItems (dictSet ((dlookup desired (pyStrip cab)).getD [])
          (deriveKey pid row col) ⟨row, col, pyStrip cstr, 0⟩)),
        OrchResp.ok⟩ := by
  unfold orch_api_mark
  dsimp only
  rw [if_neg hcab, hmeta]
  dsimp only
  rw [if_neg (by decide : ¬ (true = false)), if_neg hc]

/-- Claim C5: when no explicit id is supplied the Desired-State Tracker key is
the stable coordinate-derived string r{row}c{col}, so two upserts at the same
coordinate with different colors leave exactly one entry holding the latest
color. -/
theorem c5_derived_key_stable (cabs : List (String × CabMeta)) (desired : Desired)
    (meta : CabMeta) (cab : String) (row col : Int) (c1 c2 : String)
    (hcab : pyStrip cab ≠ "") (hmeta : dlookup cabs (pyStrip cab) = some meta)
    (hd0 : (dlookup desired (pyStrip cab)).getD [] = [])
    (hc1 : pyStrip c1 ≠ "") (hc2 : pyStrip c2 ≠ "") :
    dlookup (orch_api_mark cabs
        (orch_api_mark cabs desired ⟨cab, "", some row, some col, c1, true⟩).1
        ⟨cab, "", some row, some col, c2, true⟩).1 (pyStrip cab) =
      some [⟨"r" ++ toString row ++ "c" ++ toString col, ⟨row, col, pyStrip c2, 0⟩⟩] ∧
    deriveKey "" row col = "r" ++ toString row ++ "c" ++ toString col := by
  have hkey : deriveKey "" row col = "r" ++ toString row ++ "c" ++ toString col := by
    unfold deriveKey
    rw [if_pos (show pyStrip "" = "" from rfl)]
  refine ⟨?_, hkey⟩
  rw [orch_api_mark_on_upsert cabs desired meta cab "" row col c1 hcab hmeta hc1]
  dsimp only
  rw [hd0]
  rw [orch_api_mark_on_upsert cabs _ meta cab "" row col c2 hcab hmeta hc2]
  dsimp only
  rw [dlookup_dictSet_self]
  dsimp only [Option.getD]
  rw [dlookup_dictSet_self]
  have hone : dictSet (dictSet ([] : List (String × DMark)) (deriveKey "" row col)
      ⟨row, col, pyStrip c1, 0⟩) (deriveKey "" row col) ⟨row, col, pyStrip c2, 0⟩ =
      [⟨deriveKey "" row col, ⟨row, col, pyStrip c2, 0⟩⟩] := by
    simp [dictSet, dlookup]
  rw [hone, hkey]

/-- A witness for C5 at a concrete input. -/
theorem c5_witness :
    dlookup (orch_api_mark [⟨"A", ⟨"http://x", 3, 3, ""⟩⟩]
        (orch_api_mark [⟨"A", ⟨"http://x", 3, 3, ""⟩⟩] []
          ⟨"A", "", some 1, some 2, "red", true⟩).1
        ⟨"A", "", some 1, some 2, "blue", true⟩).1 (pyStrip "A") =
      some [⟨"r" ++ toString (1 : Int) ++ "c" ++ toString (2 : Int),
        ⟨1, 2, pyStrip "blue", 0⟩⟩] :=
  (c5_derived_key_stable [⟨"A", ⟨"http://x", 3, 3, ""⟩⟩] [] ⟨"http://x", 3, 3, ""⟩ "A" 1 2
    "red" "blue" (by decide) (by decide) (by decide) (by decide) (by decide)).1

/-- Claim C7: registration rejects a probe report with an empty node-reported
identifier or non-positive dimensions and leaves the registry unchanged; on
success the record is keyed by the node-reported identifier (the caller-supplied
alias is never the key) and re-registering the same identifier overwrites the
record, last registration winning. -/
theorem c7_register (cabs : List (String × CabMeta)) (aliasStr urlStr : String)
    (r r2 : StateReport) (hurl : pyStrip urlStr ≠ "") :
    ((pyStrip r.cabinet_id = "" ∨ r.row_len ≤ 0 ∨ r.col_len ≤ 0) →
      api_cabinets_add cabs aliasStr urlStr (some r) = ⟨cabs, RegResp.invalidDiscovery⟩) ∧
    (pyStrip r.cabinet_id ≠ "" → 0 < r.row_len → 0 < r.col_len →
      (api_cabinets_add cabs aliasStr urlStr (some r)).2 =
        RegResp.okReg (pyStrip r.cabinet_id) ∧
      dlookup (api_cabinets_add cabs aliasStr urlStr (some r)).1 (pyStrip r.cabinet_id) =
        some ⟨rstripSlash (pyStrip urlStr), r.row_len, r.col_len, pyStrip aliasStr⟩) ∧
    (pyStrip r2.cabinet_id = pyStrip r.cabinet_id → pyStrip r2.cabinet_id ≠ "" →
      0 < r2.row_len → 0 < r2.col_len →
      dlookup (api_cabinets_add (api_cabinets_add cabs aliasStr urlStr (some r)).1
          aliasStr urlStr (some r2)).1 (pyStrip r.cabinet_id) =
        some ⟨rstripSlash (pyStrip urlStr), r2.row_len, r2.col_len, pyStrip aliasStr⟩) := by
  refine ⟨?_, ?_, ?_⟩
  · intro hbad
    unfold api_cabinets_add
    dsimp only
    rw [if_neg hurl, if_pos hbad]
  · intro hsid hrl hcl
    have hcond : ¬ (pyStrip r.cabinet_id = "" ∨ r.row_len ≤ 0 ∨ r.col_len ≤ 0) := by
      push_neg
      exact ⟨hsid, by omega, by omega⟩
    unfold api_cabinets_add
    dsimp only
    rw [if_neg hurl, if_neg hcond]
    exact ⟨rfl, dlookup_dictSet_self _ _ _⟩
  · intro heq hsid2 hrl2 hcl2
    have hcond2 : ¬ (pyStrip r2.cabinet_id = "" ∨ r2.row_len ≤ 0 ∨ r2.col_len ≤ 0) := by
      push_neg
      exact ⟨hsid2, by omega, by omega⟩
    conv_lhs =>
      rw [show api_cabinets_add (api_cabinets_add cabs aliasStr urlStr (some r)).1
          aliasStr urlStr (some r2) =
        ⟨dictSet (api_cabinets_add cabs aliasStr urlStr (some r)).1 (pyStrip r2.cabinet_id)
          ⟨rstripSlash (pyStrip urlStr), r2.row_len, r2.col_len, pyStrip aliasStr⟩,
         RegResp.okReg (pyStrip r2.cabinet_id)⟩ from by
        unfold api_cabinets_add
        dsimp only
        rw [if_neg hurl, if_neg hcond2]]
    rw [← heq]
    exact dlookup_dictSet_self _ _ _

/-- A witness for C7 at a concrete input. -/
theorem c7_witness :
    (api_cabinets_add [] "" "http://b" (some ⟨"B", 3, 3⟩)).2 =
      RegResp.okReg (pyStrip "B") ∧
    dlookup (api_cabinets_add [] "" "http://b" (some ⟨"B", 3, 3⟩)).1 (pyStrip "B") =
      some ⟨rstripSlash (pyStrip "http://b"), 3, 3, pyStrip ""⟩ :=
  (c7_register [] "" "http://b" ⟨"B", 3, 3⟩ ⟨"B", 3, 3⟩ (by decide)).2.1
    (by decide) (by decide) (by decide)

/-- The registry obtained by registering node B and then node A. -/
def cabsBA : List (String × CabMeta) :=
  (api_cabinets_add ((api_cabinets_add [] "" "http://b" (some ⟨"B", 3, 3⟩)).1)
    "" "http://a" (some ⟨"A", 3, 3⟩)).1

/-- Counterexample to claim C8: after registering B then A, the cabinet listing
returns the entries in insertion order B, A — not sorted by identifier (the
order on identifiers is the lexicographic order on their characters). -/
theorem c8_counterexample :
    (api_cabinets_list cabsBA).map CabEntry.id = ["B", "A"] ∧
    ¬ List.Sorted (fun a b : String => a.data ≤ b.data)
        ((api_cabinets_list cabsBA).map CabEntry.id) := by
  constructor
  · decide
  · decide

theorem api_cabinets_list_ids (cabs : List (String × CabMeta)) :
    (api_cabinets_list cabs).map CabEntry.id = cabs.map Prod.fst := by
  unfold api_cabinets_list
  rw [List.map_map]
  apply List.map_congr_left
  intro p _
  rfl

/-- Claim C8 (amended): list() returns all registered entries, and the order is
the stable insertion order of the registry — a new registration appends at the
end, re-registering an existing identifier keeps its position — not an order
sorted by identifier. -/
theorem c8_list_insertion_order (cabs : List (String × CabMeta)) (aliasStr urlStr : String)
    (r : StateReport) (hurl : pyStrip urlStr ≠ "") (hsid : pyStrip r.cabinet_id ≠ "")
    (hrl : 0 < r.row_len) (hcl : 0 < r.col_len) :
    (api_cabinets_list cabs).map CabEntry.id = cabs.map Prod.fst ∧
    (api_cabinets_list (api_cabinets_add cabs aliasStr urlStr (some r)).1).map CabEntry.id =
      (if (dlookup cabs (pyStrip r.cabinet_id)).isSome then cabs.map Prod.fst
       else cabs.map Prod.fst ++ [pyStrip r.cabinet_id]) := by
  refine ⟨api_cabinets_list_ids cabs, ?_⟩
  have hcond : ¬ (pyStrip r.cabinet_id = "" ∨ r.row_len ≤ 0 ∨ r.col_len ≤ 0) := by
    push_neg
    exact ⟨hsid, by omega, by omega⟩
  rw [api_cabinets_list_ids]
  rw [show (api_cabinets_add cabs aliasStr urlStr (some r)).1 =
      dictSet cabs (pyStrip r.cabinet_id)
        ⟨rstripSlash (pyStrip urlStr), r.row_len, r.col_len, pyStrip aliasStr⟩ from by
    unfold api_cabinets_add
    dsimp only
    rw [if_neg hurl, if_neg hcond]]
  exact keys_dictSet cabs (pyStrip r.cabinet_id) _

/-- A witness for the amended C8 at a concrete input. -/
theorem c8_witness :
    (api_cabinets_list ((api_cabinets_add [] "" "http://b" (some ⟨"B", 3, 3⟩)).1)).map
        CabEntry.id =
      (if (dlookup ([] : List (String × CabMeta)) (pyStrip "B")).isSome then
        ([] : List (String × CabMeta)).map Prod.fst
       else ([] : List (String × CabMeta)).map Prod.fst ++ [pyStrip "B"]) :=
  (c8_list_insertion_order [] "" "http://b" ⟨"B", 3, 3⟩ (by decide) (by decide)
    (by decide) (by decide)).2

/-- Counterexample to claim C1: on a registered 3x3 cabinet, the apply-mark
intent row=5, col=0, on=true does not fail with a ValidationError — the call
returns ok and the out-of-range mark is entered into the Desired-State Tracker;
only the node-side replace-all validation leaves the Mark Store empty. -/
theorem c1_counterexample :
    (e2e_apply_mark 3 3 7 [⟨"A", ⟨"http://x", 3, 3, ""⟩⟩] [] ⟨[], 0⟩
        ⟨"A", "", some 5, some 0, "#ff0000", true⟩).2.2 = OrchResp.ok ∧
    dlookup (e2e_apply_mark 3 3 7 [⟨"A", ⟨"http://x", 3, 3, ""⟩⟩] [] ⟨[], 0⟩
        ⟨"A", "", some 5, some 0, "#ff0000", true⟩).1 "A" =
      some [⟨"r5c0", ⟨5, 0, "#ff0000", 0⟩⟩] ∧
    (e2e_apply_mark 3 3 7 [⟨"A", ⟨"http://x", 3, 3, ""⟩⟩] [] ⟨[], 0⟩
        ⟨"A", "", some 5, some 0, "#ff0000", true⟩).2.1.marks = [] :=
  ⟨by decide, by decide, by decide⟩

/-- Claim C1 (amended): an apply-mark intent whose row or col lies outside the
cabinet dimensions does not fail — the orchestrator performs no coordinate
validation, stores the out-of-range mark in the Desired-State Tracker and
reports ok; the node's per-mark validation inside replace-all silently drops the
entry, so the node's Mark Store stays empty. -/
theorem c1_amended (rowLen colLen t : Nat) (cabs : List (String × CabMeta))
    (desired : Desired) (node : MarksState) (meta : CabMeta) (cab pid : String)
    (row col : Int) (cstr : String)
    (hcab : pyStrip cab ≠ "") (hmeta : dlookup cabs (pyStrip cab) = some meta)
    (hd0 : (dlookup desired (pyStrip cab)).getD [] = [])
    (hc : pyStrip cstr ≠ "")
    (hoob : ¬ (0 ≤ row ∧ row < (rowLen : Int) ∧ 0 ≤ col ∧ col < (colLen : Int))) :
    (e2e_apply_mark rowLen colLen t cabs desired node
        ⟨cab, pid, some row, some col, cstr, true⟩).2.2 = OrchResp.ok ∧
    dlookup (e2e_apply_mark rowLen colLen t cabs desired node
        ⟨cab, pid, some row, some col, cstr, true⟩).1 (pyStrip cab) =
      some [⟨deriveKey pid row col, ⟨row, col, pyStrip cstr, 0⟩⟩] ∧
    (e2e_apply_mark rowLen colLen t cabs desired node
        ⟨cab, pid, some row, some col, cstr, true⟩).2.1.marks = [] := by
  have hv : validItem rowLen colLen ⟨deriveKey pid row col, some row, some col,
      pyStrip cstr⟩ = none := by
    unfold validItem
    dsimp only
    rw [if_neg hoob]
  unfold e2e_apply_mark
  rw [orch_api_mark_on_upsert cabs desired meta cab pid row col cstr hcab hmeta hc]
  rw [hd0]
  dsimp only
  refine ⟨rfl, dlookup_dictSet_self _ _ _, ?_⟩
  show (replace_all rowLen colLen t node
      (pushItems (dictSet [] (deriveKey pid row col) ⟨row, col, pyStrip cstr, 0⟩))).marks = []
  rw [show dictSet ([] : List (String × DMark)) (deriveKey pid row col)
      ⟨row, col, pyStrip cstr, 0⟩ = [⟨deriveKey pid row col, ⟨row, col, pyStrip cstr, 0⟩⟩]
    from rfl]
  unfold replace_all pushItems
  rw [List.map_cons, List.map_nil, List.foldl_cons, List.foldl_nil]
  unfold installStep
  rw [hv]

/-- A witness for the amended C1 at a concrete input. -/
theorem c1_witness :
    (e2e_apply_mark 3 3 9 [⟨"B", ⟨"http://y", 3, 3, ""⟩⟩] [] ⟨[], 0⟩
        ⟨"B", "", some 7, some 1, "red", true⟩).2.1.marks = [] :=
  (c1_amended 3 3 9 [⟨"B", ⟨"http://y", 3, 3, ""⟩⟩] [] ⟨[], 0⟩ ⟨"http://y", 3, 3, ""⟩
    "B" "" 7 1 "red" (by decide) (by decide) (by decide) (by decide) (by decide)).2.2

end HwMockup
